import Mathlib

/-!
Shallow embedding of the `debugid` crate (src/lib.rs): the `DebugId` and
`CodeId` identifier types, their constructors, the mode-parameterized parser
`DebugId::parse_str`, and the `Display` / Breakpad formatters.

Strings are modelled as `List Char`; all inputs that matter are ASCII, where
Rust's byte indexing coincides with character indexing.  Machine integers
(`u32`, `u8`) are modelled as `Nat` with explicit bounds where overflow or
digit-width matters.
-/

/-- ASCII test for a character, mirroring Rust's `str::is_ascii` (code point
below 128; on ASCII strings byte length and char length agree). -/
def isAsciiB (c : Char) : Bool := decide (c.toNat < 128)

/-- Rust's `char::is_ascii_hexdigit`: `0-9`, `a-f` or `A-F`. -/
def isHexDigitChar (c : Char) : Bool :=
  (decide (48 ≤ c.toNat) && decide (c.toNat ≤ 57)) ||
  (decide (97 ≤ c.toNat) && decide (c.toNat ≤ 102)) ||
  (decide (65 ≤ c.toNat) && decide (c.toNat ≤ 70))

/-- A lowercase ASCII hex digit: `0-9` or `a-f`. -/
def isLowerHexDigit (c : Char) : Bool :=
  (decide (48 ≤ c.toNat) && decide (c.toNat ≤ 57)) ||
  (decide (97 ≤ c.toNat) && decide (c.toNat ≤ 102))

/-- Numeric value of a hex digit (0 for non-digits; only applied to digits). -/
def hexVal (c : Char) : Nat :=
  if 48 ≤ c.toNat ∧ c.toNat ≤ 57 then c.toNat - 48
  else if 97 ≤ c.toNat ∧ c.toNat ≤ 102 then c.toNat - 87
  else if 65 ≤ c.toNat ∧ c.toNat ≤ 70 then c.toNat - 55
  else 0

/-- Lowercase hex digit for a nibble, as produced by Rust's `{:x}` formatting. -/
def hexDigitLower (n : Nat) : Char :=
  if n < 10 then Char.ofNat (48 + n) else Char.ofNat (87 + n)

/-- Uppercase hex digit for a nibble, as produced by Rust's `{:X}` formatting. -/
def hexDigitUpper (n : Nat) : Char :=
  if n < 10 then Char.ofNat (48 + n) else Char.ofNat (55 + n)

/-- Minimal hex digit string of `n` (empty for 0); auxiliary for `{:x}`/`{:X}`. -/
def natToHexAux (digit : Nat → Char) (n : Nat) : List Char :=
  if h : n = 0 then []
  else natToHexAux digit (n / 16) ++ [digit (n % 16)]
decreasing_by exact Nat.div_lt_self (Nat.pos_of_ne_zero h) (by norm_num)

/-- Rust `{:x}`: minimal lowercase hex rendering, `"0"` for zero. -/
def toHexLower (n : Nat) : List Char :=
  if n = 0 then ['0'] else natToHexAux hexDigitLower n

/-- Rust `{:X}`: minimal uppercase hex rendering, `"0"` for zero. -/
def toHexUpper (n : Nat) : List Char :=
  if n = 0 then ['0'] else natToHexAux hexDigitUpper n

/-- Left-pad a digit string with zeros to width `w` (Rust `{:0w...}`). -/
def padZero (w : Nat) (ds : List Char) : List Char :=
  List.replicate (w - ds.length) '0' ++ ds

/-- The value denoted by a run of hex digits (most significant first). -/
def hexFold (s : List Char) : Nat :=
  s.foldl (fun acc c => acc * 16 + hexVal c) 0

/-- Digit run of Rust's `u32::from_str_radix(s, 16)` after the optional sign:
at least one digit, all hex, and the accumulated value must fit in `u32`
(Rust's checked accumulation fails exactly when the value exceeds
`u32::MAX`). -/
def parseDigitsU32 (s : List Char) : Option Nat :=
  if s.isEmpty then none
  else if s.all isHexDigitChar then
    if hexFold s < 2 ^ 32 then some (hexFold s) else none
  else none

/-- Rust `u32::from_str_radix(s, 16)`: an optional leading `+` is stripped; a
leading `-` is stripped only for signed target types, so for `u32` any
`-`-prefixed string reaches the digit loop with the `-` in place and fails as
an invalid digit. -/
def fromStrRadix16 (s : List Char) : Option Nat :=
  match s with
  | [] => none
  | c :: rest =>
    if c = '+' then parseDigitsU32 rest
    else parseDigitsU32 s

/-! ## UUID model

The crate delegates UUID text handling to the `uuid` crate (version 0.8),
which this development models: `parse_str` accepts the 32-character simple
form (all hex) and the 36-character hyphenated form (hyphens exactly at
offsets 8, 13, 18 and 23, hex elsewhere, case-insensitive); formatting
produces hyphenated lowercase (`Display`) or simple uppercase (`{:X}` on
`to_simple_ref`). -/

/-- A 128-bit UUID as its 16 big-endian bytes (`uuid::Uuid`). -/
structure Uuid where
  b0 : Nat
  b1 : Nat
  b2 : Nat
  b3 : Nat
  b4 : Nat
  b5 : Nat
  b6 : Nat
  b7 : Nat
  b8 : Nat
  b9 : Nat
  b10 : Nat
  b11 : Nat
  b12 : Nat
  b13 : Nat
  b14 : Nat
  b15 : Nat
deriving DecidableEq

/-- Well-formedness: every byte of the UUID is below 256. -/
def Uuid.wf (u : Uuid) : Prop :=
  u.b0 < 256 ∧ u.b1 < 256 ∧ u.b2 < 256 ∧ u.b3 < 256 ∧
  u.b4 < 256 ∧ u.b5 < 256 ∧ u.b6 < 256 ∧ u.b7 < 256 ∧
  u.b8 < 256 ∧ u.b9 < 256 ∧ u.b10 < 256 ∧ u.b11 < 256 ∧
  u.b12 < 256 ∧ u.b13 < 256 ∧ u.b14 < 256 ∧ u.b15 < 256

instance (u : Uuid) : Decidable u.wf := by unfold Uuid.wf; infer_instance

/-- The all-zero UUID (`Uuid::nil` / `Default`). -/
def Uuid.nilUuid : Uuid := ⟨0, 0, 0, 0, 0, 0, 0, 0, 0, 0, 0, 0, 0, 0, 0, 0⟩

/-- Parse an even-length run of hex digits into bytes, two digits per byte. -/
def parseHexBytes : List Char → Option (List Nat)
  | [] => some []
  | c1 :: c2 :: rest =>
    if isHexDigitChar c1 && isHexDigitChar c2 then
      (parseHexBytes rest).map (fun bs => (hexVal c1 * 16 + hexVal c2) :: bs)
    else none
  | [_] => none

/-- Pack exactly 16 parsed bytes into a `Uuid`. -/
def listToUuid : List Nat → Option Uuid
  | [a0, a1, a2, a3, a4, a5, a6, a7, a8, a9, a10, a11, a12, a13, a14, a15] =>
    some ⟨a0, a1, a2, a3, a4, a5, a6, a7, a8, a9, a10, a11, a12, a13, a14, a15⟩
  | _ => none

/-- Strip the hyphens of the 8-4-4-4-12 hyphenated UUID layout, requiring
them exactly at offsets 8, 13, 18 and 23; yields the 32 digit characters. -/
def splitGroups (s : List Char) : Option (List Char) :=
  if s[8]? = some '-' ∧ s[13]? = some '-' ∧ s[18]? = some '-' ∧ s[23]? = some '-' then
    some (s.take 8 ++ (s.drop 9).take 4 ++ (s.drop 14).take 4 ++ (s.drop 19).take 4 ++ s.drop 24)
  else none

/-- `uuid::Uuid::parse_str` restricted to the lengths the crate feeds it:
32-character simple form or 36-character hyphenated form. -/
def parseUuid (s : List Char) : Option Uuid :=
  if s.length = 32 then (parseHexBytes s).bind listToUuid
  else if s.length = 36 then
    (splitGroups s).bind fun digits => (parseHexBytes digits).bind listToUuid
  else none

/-- Two lowercase hex digits of a byte. -/
def byteHexLower (b : Nat) : List Char := [hexDigitLower (b / 16), hexDigitLower (b % 16)]

/-- Two uppercase hex digits of a byte. -/
def byteHexUpper (b : Nat) : List Char := [hexDigitUpper (b / 16), hexDigitUpper (b % 16)]

/-- `uuid` hyphenated lowercase rendering (the `Display` of `uuid::Uuid`):
each byte as two lowercase hex digits, hyphens after bytes 4, 6, 8 and 10. -/
def uuidHyphenatedLower (u : Uuid) : List Char :=
  hexDigitLower (u.b0 / 16) ::
  hexDigitLower (u.b0 % 16) ::
  hexDigitLower (u.b1 / 16) ::
  hexDigitLower (u.b1 % 16) ::
  hexDigitLower (u.b2 / 16) ::
  hexDigitLower (u.b2 % 16) ::
  hexDigitLower (u.b3 / 16) ::
  hexDigitLower (u.b3 % 16) ::
  '-' ::
  hexDigitLower (u.b4 / 16) ::
  hexDigitLower (u.b4 % 16) ::
  hexDigitLower (u.b5 / 16) ::
  hexDigitLower (u.b5 % 16) ::
  '-' ::
  hexDigitLower (u.b6 / 16) ::
  hexDigitLower (u.b6 % 16) ::
  hexDigitLower (u.b7 / 16) ::
  hexDigitLower (u.b7 % 16) ::
  '-' ::
  hexDigitLower (u.b8 / 16) ::
  hexDigitLower (u.b8 % 16) ::
  hexDigitLower (u.b9 / 16) ::
  hexDigitLower (u.b9 % 16) ::
  '-' ::
  hexDigitLower (u.b10 / 16) ::
  hexDigitLower (u.b10 % 16) ::
  hexDigitLower (u.b11 / 16) ::
  hexDigitLower (u.b11 % 16) ::
  hexDigitLower (u.b12 / 16) ::
  hexDigitLower (u.b12 % 16) ::
  hexDigitLower (u.b13 / 16) ::
  hexDigitLower (u.b13 % 16) ::
  hexDigitLower (u.b14 / 16) ::
  hexDigitLower (u.b14 % 16) ::
  hexDigitLower (u.b15 / 16) ::
  hexDigitLower (u.b15 % 16) :: []

/-- `uuid` simple uppercase rendering (`{:X}` of `to_simple_ref`): each byte
as two uppercase hex digits, no hyphens. -/
def uuidSimpleUpper (u : Uuid) : List Char :=
  hexDigitUpper (u.b0 / 16) ::
  hexDigitUpper (u.b0 % 16) ::
  hexDigitUpper (u.b1 / 16) ::
  hexDigitUpper (u.b1 % 16) ::
  hexDigitUpper (u.b2 / 16) ::
  hexDigitUpper (u.b2 % 16) ::
  hexDigitUpper (u.b3 / 16) ::
  hexDigitUpper (u.b3 % 16) ::
  hexDigitUpper (u.b4 / 16) ::
  hexDigitUpper (u.b4 % 16) ::
  hexDigitUpper (u.b5 / 16) ::
  hexDigitUpper (u.b5 % 16) ::
  hexDigitUpper (u.b6 / 16) ::
  hexDigitUpper (u.b6 % 16) ::
  hexDigitUpper (u.b7 / 16) ::
  hexDigitUpper (u.b7 % 16) ::
  hexDigitUpper (u.b8 / 16) ::
  hexDigitUpper (u.b8 % 16) ::
  hexDigitUpper (u.b9 / 16) ::
  hexDigitUpper (u.b9 % 16) ::
  hexDigitUpper (u.b10 / 16) ::
  hexDigitUpper (u.b10 % 16) ::
  hexDigitUpper (u.b11 / 16) ::
  hexDigitUpper (u.b11 % 16) ::
  hexDigitUpper (u.b12 / 16) ::
  hexDigitUpper (u.b12 % 16) ::
  hexDigitUpper (u.b13 / 16) ::
  hexDigitUpper (u.b13 % 16) ::
  hexDigitUpper (u.b14 / 16) ::
  hexDigitUpper (u.b14 % 16) ::
  hexDigitUpper (u.b15 / 16) ::
  hexDigitUpper (u.b15 % 16) :: []

/-! ## DebugId model (src/lib.rs) -/

/-- The identifier part of a `DebugId`: either the PDB 2.0 timestamp or a
UUID (`enum Identifier` in src/lib.rs). -/
inductive Identifier where
  | Pdb20 (timestamp : Nat)
  | IdUuid (uuid : Uuid)
deriving DecidableEq

/-- `struct DebugId`.  The 12 padding bytes of the Rust struct are always
zero and never observed, so they are omitted from the model; equality is the
derived structural equality on `(id, appendix)` as in the Rust `derive`. -/
structure DebugId where
  id : Identifier
  appendix : Nat
deriving DecidableEq

/-- Well-formedness: UUID bytes below 256 (timestamp and appendix bounds are
stated separately where needed). -/
def DebugId.wfId (x : DebugId) : Prop :=
  match x.id with
  | .Pdb20 _ => True
  | .IdUuid u => u.wf

/-- `DebugId::from_parts`. -/
def DebugId.from_parts (uuid : Uuid) (appendix : Nat) : DebugId :=
  ⟨Identifier.IdUuid uuid, appendix⟩

/-- `DebugId::from_uuid`. -/
def DebugId.from_uuid (uuid : Uuid) : DebugId := DebugId.from_parts uuid 0

/-- `DebugId::nil` (the `Default`: nil UUID, appendix 0). -/
def DebugId.nilId : DebugId := DebugId.from_parts Uuid.nilUuid 0

/-- `DebugId::from_timestamp_age`. -/
def DebugId.from_timestamp_age (timestamp age : Nat) : DebugId :=
  ⟨Identifier.Pdb20 timestamp, age⟩

/-- `DebugId::from_guid_age`: fails unless the GUID slice has exactly 16
bytes; otherwise reorders the little-endian fields into UUID byte order. -/
def DebugId.from_guid_age (guid : List Nat) (age : Nat) : Option DebugId :=
  if guid.length ≠ 16 then none
  else
    some (DebugId.from_parts
      ⟨guid.getD 3 0, guid.getD 2 0, guid.getD 1 0, guid.getD 0 0,
       guid.getD 5 0, guid.getD 4 0, guid.getD 7 0, guid.getD 6 0,
       guid.getD 8 0, guid.getD 9 0, guid.getD 10 0, guid.getD 11 0,
       guid.getD 12 0, guid.getD 13 0, guid.getD 14 0, guid.getD 15 0⟩ age)

/-- `DebugId::uuid`. -/
def DebugId.uuidPart (x : DebugId) : Uuid :=
  match x.id with
  | .Pdb20 _ => Uuid.nilUuid
  | .IdUuid u => u

/-- `DebugId::is_nil`. -/
def DebugId.is_nil (x : DebugId) : Bool :=
  (match x.id with
   | .Pdb20 timestamp => decide (timestamp = 0)
   | .IdUuid u => decide (u = Uuid.nilUuid)) && decide (x.appendix = 0)

/-- `DebugId::is_pdb20`. -/
def DebugId.is_pdb20 (x : DebugId) : Bool :=
  match x.id with
  | .Pdb20 _ => true
  | .IdUuid _ => false

/-- `struct ParseOptions`. -/
structure ParseOptions where
  allow_hyphens : Bool
  require_appendix : Bool
  allow_tail : Bool

/-- The structural hyphenation test of `parse_str`: byte 8 is a hyphen
(`string.get(8..9) == Some("-")`). -/
def isHyph (s : List Char) : Bool := decide (s[8]? = some '-')

/-- `DebugId::parse_str`, the mode-parameterized recognizer.  Rust's fallible
`?` steps are `Option.bind` / `Option.map`. -/
def DebugId.parse_str (s : List Char) (options : ParseOptions) : Option DebugId :=
  if (isHyph s && !options.allow_hyphens) || !(s.all isAsciiB) then none
  else if (isHyph s && (decide (10 ≤ s.length) && decide (s.length ≤ 17))) ||
          (!isHyph s && (decide (9 ≤ s.length) && decide (s.length ≤ 16))) then
    (fromStrRadix16 (s.take 8)).bind fun timestamp =>
      (fromStrRadix16 (if isHyph s then s.drop 9 else s.drop 8)).map fun appendix =>
        DebugId.from_timestamp_age timestamp appendix
  else
    let uuid_len := if isHyph s then 36 else 32
    if s.length < uuid_len then none
    else
      (parseUuid (s.take uuid_len)).bind fun uuid =>
        if !options.require_appendix && decide (s.length = uuid_len) then
          some (DebugId.from_parts uuid 0)
        else
          let t0 := s.drop uuid_len
          if isHyph s != decide (t0.head? = some '-') then none
          else
            let t1 := if isHyph s then t0.drop 1 else t0
            let t2 := if options.allow_tail && decide (8 < t1.length) then t1.take 8 else t1
            (fromStrRadix16 t2).map fun appendix => DebugId.from_parts uuid appendix

/-- `DebugId::from_breakpad`. -/
def DebugId.from_breakpad (s : List Char) : Option DebugId :=
  DebugId.parse_str s ⟨false, true, false⟩

/-- The `FromStr` impl for `DebugId` (the general-purpose tolerant parser). -/
def DebugId.from_str (s : List Char) : Option DebugId :=
  DebugId.parse_str s ⟨true, false, true⟩

/-- The `fmt::Display` impl for `DebugId` (default string form). -/
def DebugId.display (x : DebugId) : List Char :=
  (match x.id with
   | .Pdb20 timestamp => padZero 8 (toHexUpper timestamp)
   | .IdUuid u => uuidHyphenatedLower u) ++
  (if 0 < x.appendix then '-' :: toHexLower x.appendix else [])

/-- The `fmt::Display` impl for `BreakpadFormat` (`DebugId::breakpad`). -/
def DebugId.breakpad (x : DebugId) : List Char :=
  (match x.id with
   | .Pdb20 timestamp => padZero 8 (toHexUpper timestamp)
   | .IdUuid u => uuidSimpleUpper u) ++ toHexLower x.appendix

/-! ## CodeId model (src/lib.rs) -/

/-- Rust `u8::make_ascii_lowercase` on a character. -/
def toLowerAscii (c : Char) : Char :=
  if 65 ≤ c.toNat ∧ c.toNat ≤ 90 then Char.ofNat (c.toNat + 32) else c

/-- `struct CodeId`: a normalized hex string. -/
structure CodeId where
  inner : List Char
deriving DecidableEq

/-- `CodeId::new`: retain only ASCII hex digits, then fold to lowercase. -/
def CodeId.new (s : List Char) : CodeId :=
  ⟨(s.filter isHexDigitChar).map toLowerAscii⟩

/-- `CodeId::nil`. -/
def CodeId.nilId : CodeId := ⟨[]⟩

/-- `CodeId::from_binary`: each byte as two lowercase hex digits (`{:02x}`),
concatenated, then passed through `CodeId::new`. -/
def CodeId.from_binary (slice : List Nat) : CodeId :=
  CodeId.new (List.flatten (slice.map fun b => padZero 2 (toHexLower b)))

/-- `CodeId::is_nil`. -/
def CodeId.is_nil (c : CodeId) : Bool := c.inner.isEmpty

/-- The `FromStr` impl for `CodeId`: always succeeds via `CodeId::new`. -/
def CodeId.from_str (s : List Char) : Option CodeId := some (CodeId.new s)

/-! ## Basic character lemmas -/

theorem hexLower_isHex (n : Nat) (h : n < 16) : isHexDigitChar (hexDigitLower n) = true := by
  interval_cases n <;> decide

theorem hexUpper_isHex (n : Nat) (h : n < 16) : isHexDigitChar (hexDigitUpper n) = true := by
  interval_cases n <;> decide

theorem hexVal_hexLower (n : Nat) (h : n < 16) : hexVal (hexDigitLower n) = n := by
  interval_cases n <;> decide

theorem hexVal_hexUpper (n : Nat) (h : n < 16) : hexVal (hexDigitUpper n) = n := by
  interval_cases n <;> decide

theorem hexLower_ne_dash (n : Nat) (h : n < 16) : (hexDigitLower n = '-') = False := by
  interval_cases n <;> simp <;> decide

theorem hexUpper_ne_dash (n : Nat) (h : n < 16) : (hexDigitUpper n = '-') = False := by
  interval_cases n <;> simp <;> decide

theorem hex_ascii (c : Char) (h : isHexDigitChar c = true) : isAsciiB c = true := by
  simp only [isHexDigitChar, Bool.or_eq_true, Bool.and_eq_true, decide_eq_true_eq] at h
  simp only [isAsciiB, decide_eq_true_eq]
  omega

theorem hex_ne_plus (c : Char) (h : isHexDigitChar c = true) : c ≠ '+' := by
  rintro rfl; simp [isHexDigitChar] at h

theorem hex_ne_dash (c : Char) (h : isHexDigitChar c = true) : c ≠ '-' := by
  rintro rfl; simp [isHexDigitChar] at h

theorem hexVal_lt_16 (c : Char) (h : isHexDigitChar c = true) : hexVal c < 16 := by
  simp only [isHexDigitChar, Bool.or_eq_true, Bool.and_eq_true, decide_eq_true_eq] at h
  unfold hexVal
  split <;> try omega
  split <;> try omega
  split <;> omega

theorem div16_lt (b : Nat) (h : b < 256) : b / 16 < 16 := by omega

theorem mod16_lt (b : Nat) : b % 16 < 16 := Nat.mod_lt _ (by norm_num)

/-! ## Hex rendering and `from_str_radix` round-trip lemmas -/

theorem hexFold_from (s : List Char) (a : Nat) :
    s.foldl (fun acc c => acc * 16 + hexVal c) a = a * 16 ^ s.length + hexFold s := by
  induction s generalizing a with
  | nil => simp [hexFold]
  | cons c t ih =>
    simp only [List.foldl_cons, List.length_cons, hexFold]
    rw [ih (a * 16 + hexVal c), ih (0 * 16 + hexVal c)]
    ring

theorem natToHexAux_spec (digit : Nat → Char)
    (hdig : ∀ m, m < 16 → isHexDigitChar (digit m) = true ∧ hexVal (digit m) = m) :
    ∀ n : Nat, (natToHexAux digit n).all isHexDigitChar = true ∧
      hexFold (natToHexAux digit n) = n := by
  intro n
  induction n using Nat.strong_induction_on with
  | _ n ih =>
    by_cases h : n = 0
    · subst h; simp [natToHexAux, hexFold]
    · have hlt : n / 16 < n := Nat.div_lt_self (Nat.pos_of_ne_zero h) (by norm_num)
      obtain ⟨ihall, ihfold⟩ := ih (n / 16) hlt
      rw [natToHexAux, dif_neg h]
      constructor
      · simp only [List.all_append, Bool.and_eq_true, ihall, List.all_cons, List.all_nil,
          Bool.and_true, true_and]
        exact (hdig _ (mod16_lt n)).1
      · unfold hexFold
        rw [List.foldl_append]
        simp only [List.foldl_cons, List.foldl_nil]
        have := hdig (n % 16) (mod16_lt n)
        rw [this.2]
        have : List.foldl (fun acc c => acc * 16 + hexVal c) 0 (natToHexAux digit (n / 16)) =
            n / 16 := ihfold
        rw [this]
        omega

theorem natToHexAux_length (digit : Nat → Char) :
    ∀ k n : Nat, n < 16 ^ k → (natToHexAux digit n).length ≤ k := by
  intro k
  induction k with
  | zero => intro n hn; interval_cases n; simp [natToHexAux]
  | succ k ih =>
    intro n hn
    by_cases h : n = 0
    · subst h; simp [natToHexAux]
    · rw [natToHexAux, dif_neg h]
      simp only [List.length_append, List.length_cons, List.length_nil]
      have : n / 16 < 16 ^ k := by
        rw [Nat.div_lt_iff_lt_mul (by norm_num : (0:Nat) < 16)]
        calc n < 16 ^ (k + 1) := hn
        _ = 16 ^ k * 16 := by ring
      have := ih (n / 16) this
      omega

theorem natToHexAux_ne_nil (digit : Nat → Char) (n : Nat) (h : n ≠ 0) :
    natToHexAux digit n ≠ [] := by
  rw [natToHexAux, dif_neg h]
  simp

theorem toHexLower_all_hex (n : Nat) : (toHexLower n).all isHexDigitChar = true := by
  unfold toHexLower
  split
  · decide
  · exact (natToHexAux_spec hexDigitLower
      (fun m hm => ⟨hexLower_isHex m hm, hexVal_hexLower m hm⟩) n).1

theorem toHexUpper_all_hex (n : Nat) : (toHexUpper n).all isHexDigitChar = true := by
  unfold toHexUpper
  split
  · decide
  · exact (natToHexAux_spec hexDigitUpper
      (fun m hm => ⟨hexUpper_isHex m hm, hexVal_hexUpper m hm⟩) n).1

theorem hexFold_toHexLower (n : Nat) : hexFold (toHexLower n) = n := by
  unfold toHexLower
  split
  · subst n; decide
  · exact (natToHexAux_spec hexDigitLower
      (fun m hm => ⟨hexLower_isHex m hm, hexVal_hexLower m hm⟩) n).2

theorem hexFold_toHexUpper (n : Nat) : hexFold (toHexUpper n) = n := by
  unfold toHexUpper
  split
  · subst n; decide
  · exact (natToHexAux_spec hexDigitUpper
      (fun m hm => ⟨hexUpper_isHex m hm, hexVal_hexUpper m hm⟩) n).2

theorem toHexLower_ne_nil (n : Nat) : toHexLower n ≠ [] := by
  unfold toHexLower
  split
  · simp
  · exact natToHexAux_ne_nil _ n (by assumption)

theorem toHexUpper_ne_nil (n : Nat) : toHexUpper n ≠ [] := by
  unfold toHexUpper
  split
  · simp
  · exact natToHexAux_ne_nil _ n (by assumption)

theorem toHexLower_length_le (n : Nat) (h : n < 2 ^ 32) : (toHexLower n).length ≤ 8 := by
  unfold toHexLower
  split
  · simp
  · exact natToHexAux_length hexDigitLower 8 n (by norm_num at h ⊢; omega)

theorem toHexUpper_length_le (n : Nat) (h : n < 2 ^ 32) : (toHexUpper n).length ≤ 8 := by
  unfold toHexUpper
  split
  · simp
  · exact natToHexAux_length hexDigitUpper 8 n (by norm_num at h ⊢; omega)

theorem parseDigitsU32_of_hex (s : List Char) (h1 : s ≠ [])
    (h2 : s.all isHexDigitChar = true) (h3 : hexFold s < 2 ^ 32) :
    parseDigitsU32 s = some (hexFold s) := by
  unfold parseDigitsU32
  rw [if_neg (by simpa using h1), if_pos h2, if_pos h3]

theorem fromStrRadix16_of_hex (s : List Char) (h1 : s ≠ [])
    (h2 : s.all isHexDigitChar = true) (h3 : hexFold s < 2 ^ 32) :
    fromStrRadix16 s = some (hexFold s) := by
  match s, h1 with
  | c :: rest, _ =>
    have hc : isHexDigitChar c = true := by
      simp only [List.all_cons, Bool.and_eq_true] at h2
      exact h2.1
    simp only [fromStrRadix16]
    rw [if_neg (hex_ne_plus c hc)]
    exact parseDigitsU32_of_hex _ (by simp) h2 h3

theorem fromStrRadix16_toHexLower (n : Nat) (h : n < 2 ^ 32) :
    fromStrRadix16 (toHexLower n) = some n := by
  rw [fromStrRadix16_of_hex _ (toHexLower_ne_nil n) (toHexLower_all_hex n)
    (by rw [hexFold_toHexLower]; exact h), hexFold_toHexLower]

theorem hexFold_replicate_zero (k : Nat) (s : List Char) :
    hexFold (List.replicate k '0' ++ s) = hexFold s := by
  induction k with
  | zero => simp
  | succ k ih =>
    rw [List.replicate_succ]
    simpa [hexFold, hexVal] using ih

theorem padZero_all_hex (w : Nat) (s : List Char) (h : s.all isHexDigitChar = true) :
    (padZero w s).all isHexDigitChar = true := by
  unfold padZero
  simp only [List.all_append, Bool.and_eq_true, h, and_true]
  simp only [List.all_eq_true]
  intro c hc
  rw [List.eq_of_mem_replicate hc]
  decide

theorem padZero_length (w : Nat) (s : List Char) (h : s.length ≤ w) :
    (padZero w s).length = w := by
  unfold padZero
  simp only [List.length_append, List.length_replicate]
  omega

theorem fromStrRadix16_padZero_toHexUpper (n : Nat) (h : n < 2 ^ 32) :
    fromStrRadix16 (padZero 8 (toHexUpper n)) = some n := by
  have hall : (padZero 8 (toHexUpper n)).all isHexDigitChar = true :=
    padZero_all_hex _ _ (toHexUpper_all_hex n)
  have hfold : hexFold (padZero 8 (toHexUpper n)) = n := by
    unfold padZero
    rw [hexFold_replicate_zero, hexFold_toHexUpper]
  have hne : padZero 8 (toHexUpper n) ≠ [] := by
    intro hc
    have := congrArg List.length hc
    rw [padZero_length 8 _ (toHexUpper_length_le n h)] at this
    simp at this
  rw [fromStrRadix16_of_hex _ hne hall (by rw [hfold]; exact h), hfold]

/-! ## `parseHexBytes` and UUID format round-trips -/

theorem parseHexBytes_pairLower (b : Nat) (hb : b < 256) (rest : List Char) :
    parseHexBytes (hexDigitLower (b / 16) :: hexDigitLower (b % 16) :: rest) =
      (parseHexBytes rest).map (fun bs => b :: bs) := by
  have hd := div16_lt b hb
  have hm := mod16_lt b
  simp only [parseHexBytes, hexLower_isHex _ hd, hexLower_isHex _ hm, Bool.and_self, if_true,
    hexVal_hexLower _ hd, hexVal_hexLower _ hm]
  have hb2 : b / 16 * 16 + b % 16 = b := by omega
  simp [hb2]

theorem parseHexBytes_pairUpper (b : Nat) (hb : b < 256) (rest : List Char) :
    parseHexBytes (hexDigitUpper (b / 16) :: hexDigitUpper (b % 16) :: rest) =
      (parseHexBytes rest).map (fun bs => b :: bs) := by
  have hd := div16_lt b hb
  have hm := mod16_lt b
  simp only [parseHexBytes, hexUpper_isHex _ hd, hexUpper_isHex _ hm, Bool.and_self, if_true,
    hexVal_hexUpper _ hd, hexVal_hexUpper _ hm]
  have hb2 : b / 16 * 16 + b % 16 = b := by omega
  simp [hb2]

set_option maxHeartbeats 2000000 in
theorem parseUuid_format_hyph (u : Uuid) (hu : u.wf) :
    parseUuid (uuidHyphenatedLower u) = some u := by
  obtain ⟨h0, h1, h2, h3, h4, h5, h6, h7, h8, h9, h10, h11, h12, h13, h14, h15⟩ := hu
  have step : parseUuid (uuidHyphenatedLower u) =
      (parseHexBytes (
        hexDigitLower (u.b0 / 16) :: hexDigitLower (u.b0 % 16) ::
        hexDigitLower (u.b1 / 16) :: hexDigitLower (u.b1 % 16) ::
        hexDigitLower (u.b2 / 16) :: hexDigitLower (u.b2 % 16) ::
        hexDigitLower (u.b3 / 16) :: hexDigitLower (u.b3 % 16) ::
        hexDigitLower (u.b4 / 16) :: hexDigitLower (u.b4 % 16) ::
        hexDigitLower (u.b5 / 16) :: hexDigitLower (u.b5 % 16) ::
        hexDigitLower (u.b6 / 16) :: hexDigitLower (u.b6 % 16) ::
        hexDigitLower (u.b7 / 16) :: hexDigitLower (u.b7 % 16) ::
        hexDigitLower (u.b8 / 16) :: hexDigitLower (u.b8 % 16) ::
        hexDigitLower (u.b9 / 16) :: hexDigitLower (u.b9 % 16) ::
        hexDigitLower (u.b10 / 16) :: hexDigitLower (u.b10 % 16) ::
        hexDigitLower (u.b11 / 16) :: hexDigitLower (u.b11 % 16) ::
        hexDigitLower (u.b12 / 16) :: hexDigitLower (u.b12 % 16) ::
        hexDigitLower (u.b13 / 16) :: hexDigitLower (u.b13 % 16) ::
        hexDigitLower (u.b14 / 16) :: hexDigitLower (u.b14 % 16) ::
        hexDigitLower (u.b15 / 16) :: hexDigitLower (u.b15 % 16) :: [])).bind listToUuid := rfl
  rw [step, parseHexBytes_pairLower u.b0 h0 _,
    parseHexBytes_pairLower u.b1 h1 _,
    parseHexBytes_pairLower u.b2 h2 _,
    parseHexBytes_pairLower u.b3 h3 _,
    parseHexBytes_pairLower u.b4 h4 _,
    parseHexBytes_pairLower u.b5 h5 _,
    parseHexBytes_pairLower u.b6 h6 _,
    parseHexBytes_pairLower u.b7 h7 _,
    parseHexBytes_pairLower u.b8 h8 _,
    parseHexBytes_pairLower u.b9 h9 _,
    parseHexBytes_pairLower u.b10 h10 _,
    parseHexBytes_pairLower u.b11 h11 _,
    parseHexBytes_pairLower u.b12 h12 _,
    parseHexBytes_pairLower u.b13 h13 _,
    parseHexBytes_pairLower u.b14 h14 _,
    parseHexBytes_pairLower u.b15 h15 _]
  simp [parseHexBytes, listToUuid]

set_option maxHeartbeats 2000000 in
theorem parseUuid_format_simple (u : Uuid) (hu : u.wf) :
    parseUuid (uuidSimpleUpper u) = some u := by
  obtain ⟨h0, h1, h2, h3, h4, h5, h6, h7, h8, h9, h10, h11, h12, h13, h14, h15⟩ := hu
  have step : parseUuid (uuidSimpleUpper u) =
      (parseHexBytes (
        hexDigitUpper (u.b0 / 16) :: hexDigitUpper (u.b0 % 16) ::
        hexDigitUpper (u.b1 / 16) :: hexDigitUpper (u.b1 % 16) ::
        hexDigitUpper (u.b2 / 16) :: hexDigitUpper (u.b2 % 16) ::
        hexDigitUpper (u.b3 / 16) :: hexDigitUpper (u.b3 % 16) ::
        hexDigitUpper (u.b4 / 16) :: hexDigitUpper (u.b4 % 16) ::
        hexDigitUpper (u.b5 / 16) :: hexDigitUpper (u.b5 % 16) ::
        hexDigitUpper (u.b6 / 16) :: hexDigitUpper (u.b6 % 16) ::
        hexDigitUpper (u.b7 / 16) :: hexDigitUpper (u.b7 % 16) ::
        hexDigitUpper (u.b8 / 16) :: hexDigitUpper (u.b8 % 16) ::
        hexDigitUpper (u.b9 / 16) :: hexDigitUpper (u.b9 % 16) ::
        hexDigitUpper (u.b10 / 16) :: hexDigitUpper (u.b10 % 16) ::
        hexDigitUpper (u.b11 / 16) :: hexDigitUpper (u.b11 % 16) ::
        hexDigitUpper (u.b12 / 16) :: hexDigitUpper (u.b12 % 16) ::
        hexDigitUpper (u.b13 / 16) :: hexDigitUpper (u.b13 % 16) ::
        hexDigitUpper (u.b14 / 16) :: hexDigitUpper (u.b14 % 16) ::
        hexDigitUpper (u.b15 / 16) :: hexDigitUpper (u.b15 % 16) :: [])).bind listToUuid := rfl
  rw [step, parseHexBytes_pairUpper u.b0 h0 _,
    parseHexBytes_pairUpper u.b1 h1 _,
    parseHexBytes_pairUpper u.b2 h2 _,
    parseHexBytes_pairUpper u.b3 h3 _,
    parseHexBytes_pairUpper u.b4 h4 _,
    parseHexBytes_pairUpper u.b5 h5 _,
    parseHexBytes_pairUpper u.b6 h6 _,
    parseHexBytes_pairUpper u.b7 h7 _,
    parseHexBytes_pairUpper u.b8 h8 _,
    parseHexBytes_pairUpper u.b9 h9 _,
    parseHexBytes_pairUpper u.b10 h10 _,
    parseHexBytes_pairUpper u.b11 h11 _,
    parseHexBytes_pairUpper u.b12 h12 _,
    parseHexBytes_pairUpper u.b13 h13 _,
    parseHexBytes_pairUpper u.b14 h14 _,
    parseHexBytes_pairUpper u.b15 h15 _]
  simp [parseHexBytes, listToUuid]

/-! ## Inversion lemmas for `parseHexBytes`, `splitGroups`, `parseUuid` -/

theorem parseHexBytes_all_hex :
    ∀ (s : List Char) (l : List Nat), parseHexBytes s = some l →
      s.all isHexDigitChar = true
  | [], _, _ => rfl
  | [c], _, h => by simp [parseHexBytes] at h
  | c1 :: c2 :: rest, l, h => by
    simp only [parseHexBytes] at h
    split at h
    · rename_i hx
      simp only [Bool.and_eq_true] at hx
      obtain ⟨l2, hl2, _⟩ := Option.map_eq_some'.mp h
      have ih := parseHexBytes_all_hex rest l2 hl2
      simp [List.all_cons, hx.1, hx.2, ih]
    · exact absurd h (by simp)

theorem all_hex_ascii (s : List Char) (h : s.all isHexDigitChar = true) :
    s.all isAsciiB = true := by
  rw [List.all_eq_true] at h ⊢
  exact fun c hc => hex_ascii c (h c hc)

theorem splitGroups_inv (s : List Char) (d : List Char) (h : splitGroups s = some d) :
    s[8]? = some '-' ∧ s[13]? = some '-' ∧ s[18]? = some '-' ∧ s[23]? = some '-' ∧
    d = s.take 8 ++ (s.drop 9).take 4 ++ (s.drop 14).take 4 ++ (s.drop 19).take 4 ++ s.drop 24 := by
  unfold splitGroups at h
  split at h
  · rename_i hc
    exact ⟨hc.1, hc.2.1, hc.2.2.1, hc.2.2.2, (Option.some.injEq _ _ ▸ h).symm⟩
  · exact absurd h (by simp)

theorem drop_cons_of_getElem (s : List Char) (n : Nat) (c : Char) (h : s[n]? = some c) :
    s.drop n = c :: s.drop (n + 1) := by
  have hn : n < s.length := by
    by_contra hc
    rw [List.getElem?_eq_none (by omega)] at h
    exact absurd h (by simp)
  rw [List.drop_eq_getElem_cons hn]
  rw [List.getElem?_eq_getElem hn] at h
  rw [Option.some.injEq] at h
  rw [h]

theorem parseUuid_inv (s : List Char) (u : Uuid) (h : parseUuid s = some u) :
    s.all isAsciiB = true ∧
    ((s.length = 32 ∧ s[8]? ≠ some '-') ∨ (s.length = 36 ∧ s[8]? = some '-')) := by
  unfold parseUuid at h
  by_cases h32 : s.length = 32
  · rw [if_pos h32] at h
    obtain ⟨l, hl, _⟩ := Option.bind_eq_some.mp h
    have hhex := parseHexBytes_all_hex s l hl
    refine ⟨all_hex_ascii s hhex, Or.inl ⟨h32, ?_⟩⟩
    intro hcontra
    have h8 : 8 < s.length := by omega
    rw [List.getElem?_eq_getElem h8, Option.some.injEq] at hcontra
    have hmem := List.getElem_mem h8
    have := List.all_eq_true.mp hhex _ hmem
    rw [hcontra] at this
    exact absurd this (by decide)
  · rw [if_neg h32] at h
    by_cases h36 : s.length = 36
    · rw [if_pos h36] at h
      obtain ⟨d, hd, hrest⟩ := Option.bind_eq_some.mp h
      obtain ⟨l, hl, _⟩ := Option.bind_eq_some.mp hrest
      obtain ⟨e8, e13, e18, e23, hdeq⟩ := splitGroups_inv s d hd
      have hdhex := parseHexBytes_all_hex d l hl
      rw [hdeq] at hdhex
      simp only [List.all_append, Bool.and_eq_true] at hdhex
      obtain ⟨⟨⟨⟨hx1, hx2⟩, hx3⟩, hx4⟩, hx5⟩ := hdhex
      refine ⟨?_, Or.inr ⟨h36, e8⟩⟩
      have t9 : s.drop 9 = (s.drop 9).take 4 ++ s.drop 13 := by
        conv_lhs => rw [← List.take_append_drop 4 (s.drop 9)]
        simp [List.drop_drop]
      have t14 : s.drop 14 = (s.drop 14).take 4 ++ s.drop 18 := by
        conv_lhs => rw [← List.take_append_drop 4 (s.drop 14)]
        simp [List.drop_drop]
      have t19 : s.drop 19 = (s.drop 19).take 4 ++ s.drop 23 := by
        conv_lhs => rw [← List.take_append_drop 4 (s.drop 19)]
        simp [List.drop_drop]
      have hs : s = s.take 8 ++ '-' :: ((s.drop 9).take 4 ++ '-' ::
          ((s.drop 14).take 4 ++ '-' :: ((s.drop 19).take 4 ++ '-' :: s.drop 24))) := by
        calc s = s.take 8 ++ s.drop 8 := (List.take_append_drop 8 s).symm
        _ = s.take 8 ++ '-' :: s.drop 9 := by rw [drop_cons_of_getElem s 8 '-' e8]
        _ = s.take 8 ++ '-' :: ((s.drop 9).take 4 ++ s.drop 13) := by rw [← t9]
        _ = s.take 8 ++ '-' :: ((s.drop 9).take 4 ++ '-' :: s.drop 14) := by
            rw [drop_cons_of_getElem s 13 '-' e13]
        _ = s.take 8 ++ '-' :: ((s.drop 9).take 4 ++ '-' ::
            ((s.drop 14).take 4 ++ s.drop 18)) := by rw [← t14]
        _ = s.take 8 ++ '-' :: ((s.drop 9).take 4 ++ '-' ::
            ((s.drop 14).take 4 ++ '-' :: s.drop 19)) := by
            rw [drop_cons_of_getElem s 18 '-' e18]
        _ = s.take 8 ++ '-' :: ((s.drop 9).take 4 ++ '-' ::
            ((s.drop 14).take 4 ++ '-' :: ((s.drop 19).take 4 ++ s.drop 23))) := by rw [← t19]
        _ = _ := by rw [drop_cons_of_getElem s 23 '-' e23]
      conv_lhs => rw [hs]
      simp only [List.all_append, List.all_cons, Bool.and_eq_true]
      exact ⟨all_hex_ascii _ hx1, by decide, ⟨all_hex_ascii _ hx2, by decide,
        all_hex_ascii _ hx3, by decide, all_hex_ascii _ hx4, by decide, all_hex_ascii _ hx5⟩⟩
    · rw [if_neg h36] at h
      exact absurd h (by simp)

/-! ## Shape lemmas for `DebugId.parse_str` -/

theorem isHyph_append (s tail : List Char) (h : 8 < s.length) :
    isHyph (s ++ tail) = isHyph s := by
  unfold isHyph
  rw [List.getElem?_append, if_pos (by omega)]

theorem parse_str_hyph_reject (s : List Char) (opts : ParseOptions)
    (h8 : isHyph s = true) (hopt : opts.allow_hyphens = false) :
    DebugId.parse_str s opts = none := by
  unfold DebugId.parse_str
  rw [if_pos]
  rw [h8, hopt]
  rfl

theorem parse_str_window (opts : ParseOptions) (s : List Char)
    (ha : s.all isAsciiB = true)
    (hmode : isHyph s = true → opts.allow_hyphens = true)
    (hwin : if isHyph s = true then 10 ≤ s.length ∧ s.length ≤ 17
            else 9 ≤ s.length ∧ s.length ≤ 16) :
    DebugId.parse_str s opts =
      (fromStrRadix16 (s.take 8)).bind fun timestamp =>
        (fromStrRadix16 (if isHyph s then s.drop 9 else s.drop 8)).map fun appendix =>
          DebugId.from_timestamp_age timestamp appendix := by
  unfold DebugId.parse_str
  have hc1 : ((isHyph s && !opts.allow_hyphens) || !(s.all isAsciiB)) = false := by
    rw [ha]
    cases hh : isHyph s
    · rfl
    · rw [hmode hh]; rfl
  rw [hc1]
  have hc2 : ((isHyph s && (decide (10 ≤ s.length) && decide (s.length ≤ 17))) ||
      (!isHyph s && (decide (9 ≤ s.length) && decide (s.length ≤ 16)))) = true := by
    cases hh : isHyph s
    · rw [hh] at hwin
      simp only [Bool.false_eq_true, if_false] at hwin
      simp [hwin.1, hwin.2]
    · rw [hh] at hwin
      simp only [if_true] at hwin
      simp [hwin.1, hwin.2]
  rw [hc2]
  rfl

theorem parse_str_uuid_stage (opts : ParseOptions) (s tail : List Char) (u : Uuid)
    (hu : parseUuid s = some u) (hta : tail.all isAsciiB = true)
    (hmode : isHyph s = true → opts.allow_hyphens = true) :
    DebugId.parse_str (s ++ tail) opts =
      if (!opts.require_appendix && decide (tail.length = 0)) = true then
        some (DebugId.from_parts u 0)
      else if (isHyph s != decide (tail.head? = some '-')) = true then none
      else
        (fromStrRadix16
          (if (opts.allow_tail &&
               decide (8 < (if isHyph s = true then tail.drop 1 else tail).length)) = true
           then (if isHyph s = true then tail.drop 1 else tail).take 8
           else (if isHyph s = true then tail.drop 1 else tail))).map
          fun appendix => DebugId.from_parts u appendix := by
  obtain ⟨hsa, hcase⟩ := parseUuid_inv s u hu
  have hall : (s ++ tail).all isAsciiB = true := by rw [List.all_append, hsa, hta]; rfl
  rcases hcase with ⟨hL, h8⟩ | ⟨hL, h8⟩
  · -- compact form: length 32, no hyphen at offset 8
    have hys : isHyph s = false := by unfold isHyph; exact decide_eq_false h8
    have hh : isHyph (s ++ tail) = false := by rw [isHyph_append s tail (by omega), hys]
    have hlen : (s ++ tail).length = 32 + tail.length := by rw [List.length_append, hL]
    unfold DebugId.parse_str
    have hc1 : ((isHyph (s ++ tail) && !opts.allow_hyphens) || !((s ++ tail).all isAsciiB))
        = false := by rw [hh, hall]; rfl
    rw [hc1, if_neg Bool.false_ne_true]
    have hc2 : ((isHyph (s ++ tail) && (decide (10 ≤ (s ++ tail).length) &&
        decide ((s ++ tail).length ≤ 17))) || (!isHyph (s ++ tail) &&
        (decide (9 ≤ (s ++ tail).length) && decide ((s ++ tail).length ≤ 16)))) = false := by
      have hd1 : decide ((s ++ tail).length ≤ 16) = false := decide_eq_false (by omega)
      rw [hh, hd1]
      simp
    rw [hc2, if_neg Bool.false_ne_true]
    rw [hh]
    simp only [Bool.false_eq_true, if_false]
    rw [if_neg (by omega : ¬ (s ++ tail).length < 32)]
    rw [List.take_left' hL, hu, Option.some_bind]
    have hd2 : decide ((s ++ tail).length = 32) = decide (tail.length = 0) := by
      simp only [decide_eq_decide]
      omega
    rw [hd2, List.drop_left' hL, hys]
    rfl
  · -- hyphenated form: length 36, hyphen at offset 8
    have hys : isHyph s = true := by unfold isHyph; exact decide_eq_true h8
    have hh : isHyph (s ++ tail) = true := by rw [isHyph_append s tail (by omega), hys]
    have hlen : (s ++ tail).length = 36 + tail.length := by rw [List.length_append, hL]
    unfold DebugId.parse_str
    have hc1 : ((isHyph (s ++ tail) && !opts.allow_hyphens) || !((s ++ tail).all isAsciiB))
        = false := by rw [hh, hall, hmode hys]; rfl
    rw [hc1, if_neg Bool.false_ne_true]
    have hc2 : ((isHyph (s ++ tail) && (decide (10 ≤ (s ++ tail).length) &&
        decide ((s ++ tail).length ≤ 17))) || (!isHyph (s ++ tail) &&
        (decide (9 ≤ (s ++ tail).length) && decide ((s ++ tail).length ≤ 16)))) = false := by
      have hd1 : decide ((s ++ tail).length ≤ 17) = false := decide_eq_false (by omega)
      rw [hh, hd1]
      simp
    rw [hc2, if_neg Bool.false_ne_true]
    rw [hh]
    simp only [if_true]
    rw [if_neg (by omega : ¬ (s ++ tail).length < 36)]
    rw [List.take_left' hL, hu, Option.some_bind]
    have hd2 : decide ((s ++ tail).length = 36) = decide (tail.length = 0) := by
      simp only [decide_eq_decide]
      omega
    rw [hd2, List.drop_left' hL, hys]
    rfl

/-! ## Parse corollaries for the concrete input shapes -/

theorem toHexLower_length_pos (n : Nat) : 0 < (toHexLower n).length :=
  List.length_pos.mpr (toHexLower_ne_nil n)

theorem toHexLower_ascii (n : Nat) : (toHexLower n).all isAsciiB = true :=
  all_hex_ascii _ (toHexLower_all_hex n)

theorem from_str_uuid_exact (s : List Char) (u : Uuid) (hu : parseUuid s = some u) :
    DebugId.from_str s = some (DebugId.from_parts u 0) := by
  have h := parse_str_uuid_stage ⟨true, false, true⟩ s [] u hu (by rfl) (fun _ => rfl)
  rw [List.append_nil] at h
  unfold DebugId.from_str
  rw [h]
  rfl

theorem from_breakpad_uuid_exact (s : List Char) (u : Uuid) (hu : parseUuid s = some u) :
    DebugId.from_breakpad s = none := by
  obtain ⟨hsa, hcase⟩ := parseUuid_inv s u hu
  rcases hcase with ⟨hL, h8⟩ | ⟨hL, h8⟩
  · have hys : isHyph s = false := by unfold isHyph; exact decide_eq_false h8
    have h := parse_str_uuid_stage ⟨false, true, false⟩ s [] u hu (by rfl)
      (fun hcontr => absurd (hys ▸ hcontr) (by simp))
    rw [List.append_nil] at h
    unfold DebugId.from_breakpad
    rw [h, hys]
    rfl
  · have hys : isHyph s = true := by unfold isHyph; exact decide_eq_true h8
    exact parse_str_hyph_reject s _ hys rfl

theorem from_str_uuid_hyph_tail (s : List Char) (u : Uuid) (hu : parseUuid s = some u)
    (hL : s.length = 36) (apx : List Char) (hapx : apx.all isAsciiB = true) :
    DebugId.from_str (s ++ '-' :: apx) =
      (fromStrRadix16 (if 8 < apx.length then apx.take 8 else apx)).map
        fun appendix => DebugId.from_parts u appendix := by
  obtain ⟨hsa, hcase⟩ := parseUuid_inv s u hu
  rcases hcase with ⟨hL2, _⟩ | ⟨_, h8⟩
  · omega
  have hys : isHyph s = true := by unfold isHyph; exact decide_eq_true h8
  have h := parse_str_uuid_stage ⟨true, false, true⟩ s ('-' :: apx) u hu
    (by rw [List.all_cons, hapx]; rfl) (fun _ => rfl)
  unfold DebugId.from_str
  rw [h, hys]
  have hz : decide (('-' :: apx).length = 0) = false := decide_eq_false (by simp)
  rw [hz]
  have hhd : decide (('-' :: apx).head? = some '-') = true := by rfl
  rw [hhd]
  simp only [Bool.and_false, Bool.false_eq_true, if_false, bne_self_eq_false, List.drop_one,
    List.tail_cons, Bool.true_and, eq_self_iff_true, if_true, decide_eq_true_eq]

theorem from_breakpad_uuid_tail (u : Uuid) (hwf : u.wf) (apx : List Char)
    (hapx : apx.all isAsciiB = true) (hnd : apx.head? ≠ some '-') :
    DebugId.from_breakpad (uuidSimpleUpper u ++ apx) =
      (fromStrRadix16 apx).map fun appendix => DebugId.from_parts u appendix := by
  have hu := parseUuid_format_simple u hwf
  have h84 : (uuidSimpleUpper u)[8]? = some (hexDigitUpper (u.b4 / 16)) := rfl
  have hys : isHyph (uuidSimpleUpper u) = false := by
    unfold isHyph
    rw [h84]
    refine decide_eq_false fun hcontr => ?_
    rw [Option.some.injEq] at hcontr
    rw [hexUpper_ne_dash (u.b4 / 16) (div16_lt _ hwf.2.2.2.2.1)] at hcontr
    exact hcontr
  have h := parse_str_uuid_stage ⟨false, true, false⟩ (uuidSimpleUpper u) apx u hu hapx
    (fun hcontr => absurd (hys ▸ hcontr) (by simp))
  unfold DebugId.from_breakpad
  rw [h, hys]
  have hhd : decide (apx.head? = some '-') = false := decide_eq_false hnd
  rw [hhd]
  rfl

theorem from_str_legacy_tail (t a : Nat) (ht : t < 2 ^ 32) (ha : a < 2 ^ 32) :
    DebugId.from_str (padZero 8 (toHexUpper t) ++ '-' :: toHexLower a) =
      some (DebugId.from_timestamp_age t a) := by
  have hpl : (padZero 8 (toHexUpper t)).length = 8 :=
    padZero_length _ _ (toHexUpper_length_le t ht)
  have hal : (toHexLower a).length ≤ 8 := toHexLower_length_le a ha
  have hap : 0 < (toHexLower a).length := toHexLower_length_pos a
  have hlen : (padZero 8 (toHexUpper t) ++ '-' :: toHexLower a).length =
      9 + (toHexLower a).length := by
    rw [List.length_append, hpl, List.length_cons]
    omega
  have hhyph : isHyph (padZero 8 (toHexUpper t) ++ '-' :: toHexLower a) = true := by
    unfold isHyph
    rw [List.getElem?_append_right (by omega), hpl]
    norm_num
  have hascii : (padZero 8 (toHexUpper t) ++ '-' :: toHexLower a).all isAsciiB = true := by
    rw [List.all_append, List.all_cons]
    rw [all_hex_ascii _ (padZero_all_hex _ _ (toHexUpper_all_hex t)), toHexLower_ascii a]
    rfl
  have h := parse_str_window ⟨true, false, true⟩ (padZero 8 (toHexUpper t) ++ '-' :: toHexLower a)
    hascii (fun _ => rfl) (by rw [if_pos hhyph]; omega)
  unfold DebugId.from_str
  rw [h, hhyph, List.take_left' hpl]
  have hsplit : padZero 8 (toHexUpper t) ++ '-' :: toHexLower a =
      (padZero 8 (toHexUpper t) ++ ['-']) ++ toHexLower a := by simp
  have hdrop : (padZero 8 (toHexUpper t) ++ '-' :: toHexLower a).drop 9 = toHexLower a := by
    rw [hsplit]
    exact List.drop_left' (by rw [List.length_append, hpl]; rfl)
  simp only [if_true, hdrop]
  rw [fromStrRadix16_padZero_toHexUpper t ht, fromStrRadix16_toHexLower a ha]
  rfl

theorem from_breakpad_legacy (t a : Nat) (ht : t < 2 ^ 32) (ha : a < 2 ^ 32) :
    DebugId.from_breakpad (padZero 8 (toHexUpper t) ++ toHexLower a) =
      some (DebugId.from_timestamp_age t a) := by
  have hpl : (padZero 8 (toHexUpper t)).length = 8 :=
    padZero_length _ _ (toHexUpper_length_le t ht)
  have hal : (toHexLower a).length ≤ 8 := toHexLower_length_le a ha
  have hap : 0 < (toHexLower a).length := toHexLower_length_pos a
  have hlen : (padZero 8 (toHexUpper t) ++ toHexLower a).length = 8 + (toHexLower a).length := by
    rw [List.length_append, hpl]
  obtain ⟨c, rest, hcr⟩ := List.exists_cons_of_ne_nil (toHexLower_ne_nil a)
  have hchex : isHexDigitChar c = true := by
    have := toHexLower_all_hex a
    rw [hcr, List.all_cons, Bool.and_eq_true] at this
    exact this.1
  have hhyph : isHyph (padZero 8 (toHexUpper t) ++ toHexLower a) = false := by
    unfold isHyph
    rw [List.getElem?_append_right (by omega), hpl, hcr]
    norm_num
    exact fun hcontr => absurd hcontr (hex_ne_dash c hchex)
  have hascii : (padZero 8 (toHexUpper t) ++ toHexLower a).all isAsciiB = true := by
    rw [List.all_append]
    rw [all_hex_ascii _ (padZero_all_hex _ _ (toHexUpper_all_hex t)), toHexLower_ascii a]
    rfl
  have h := parse_str_window ⟨false, true, false⟩ (padZero 8 (toHexUpper t) ++ toHexLower a)
    hascii (fun hcontr => absurd (hhyph ▸ hcontr) (by simp))
    (by rw [if_neg (by rw [hhyph]; exact Bool.false_ne_true)]; omega)
  unfold DebugId.from_breakpad
  rw [h, hhyph, List.take_left' hpl]
  have hdrop : (padZero 8 (toHexUpper t) ++ toHexLower a).drop 8 = toHexLower a :=
    List.drop_left' hpl
  simp only [Bool.false_eq_true, if_false, hdrop]
  rw [fromStrRadix16_padZero_toHexUpper t ht, fromStrRadix16_toHexLower a ha]
  rfl

/-! ## Remaining helper lemmas -/

theorem toNat_ofNat_valid (n : Nat) (h : n.isValidChar) : (Char.ofNat n).toNat = n := by
  unfold Char.ofNat
  rw [dif_pos h]
  rfl

theorem hexFold_lt_pow (s : List Char) (h : s.all isHexDigitChar = true) :
    hexFold s < 16 ^ s.length := by
  induction s using List.reverseRecOn with
  | nil => simp [hexFold]
  | append_singleton xs c ih =>
    rw [List.all_append, Bool.and_eq_true] at h
    have hc : hexVal c < 16 := hexVal_lt_16 c (by simpa using h.2)
    unfold hexFold
    rw [List.foldl_append]
    simp only [List.foldl_cons, List.foldl_nil, List.length_append, List.length_cons,
      List.length_nil]
    have hxs := ih h.1
    unfold hexFold at hxs
    have : 16 ^ (xs.length + (0 + 1)) = 16 ^ xs.length * 16 := by ring
    rw [this]
    nlinarith [hxs, hc]

theorem all_of_sublist (p : Char → Bool) (l1 l2 : List Char) (hs : List.Sublist l1 l2)
    (h : l2.all p = true) : l1.all p = true := by
  rw [List.all_eq_true] at h ⊢
  exact fun c hc => h c (hs.subset hc)

theorem natToHexAux_zero (digit : Nat → Char) : natToHexAux digit 0 = [] := by
  rw [natToHexAux]
  rfl

theorem padZero_two_byte (b : Nat) (hb : b < 256) :
    padZero 2 (toHexLower b) = byteHexLower b := by
  by_cases h0 : b = 0
  · subst h0; decide
  · by_cases h16 : b < 16
    · have he : natToHexAux hexDigitLower b = [hexDigitLower b] := by
        rw [natToHexAux, dif_neg h0]
        have hd : b / 16 = 0 := by omega
        have hm : b % 16 = b := by omega
        rw [hd, hm, natToHexAux_zero]
        rfl
      unfold toHexLower padZero byteHexLower
      rw [if_neg h0, he]
      have hd : b / 16 = 0 := by omega
      have hm : b % 16 = b := by omega
      rw [hd, hm]
      rfl
    · have hd0 : b / 16 ≠ 0 := by omega
      have he : natToHexAux hexDigitLower b =
          [hexDigitLower (b / 16), hexDigitLower (b % 16)] := by
        rw [natToHexAux, dif_neg h0]
        rw [natToHexAux, dif_neg hd0]
        have hdd : b / 16 / 16 = 0 := by omega
        have hdm : b / 16 % 16 = b / 16 := by omega
        rw [hdd, hdm, natToHexAux_zero]
        rfl
      unfold toHexLower padZero byteHexLower
      rw [if_neg h0, he]
      rfl

theorem toLowerAscii_fix_lower (n : Nat) (h : n < 16) :
    toLowerAscii (hexDigitLower n) = hexDigitLower n := by
  interval_cases n <;> decide

theorem lower_hex_of_hex (c : Char) (h : isHexDigitChar c = true) :
    isLowerHexDigit (toLowerAscii c) = true := by
  simp only [isHexDigitChar, Bool.or_eq_true, Bool.and_eq_true, decide_eq_true_eq] at h
  unfold toLowerAscii isLowerHexDigit
  rcases h with (h | h) | h
  · rw [if_neg (by omega)]
    simp only [Bool.or_eq_true, Bool.and_eq_true, decide_eq_true_eq]
    omega
  · rw [if_neg (by omega)]
    simp only [Bool.or_eq_true, Bool.and_eq_true, decide_eq_true_eq]
    omega
  · rw [if_pos (by omega)]
    have hv : (c.toNat + 32).isValidChar := Or.inl (by omega)
    simp only [Bool.or_eq_true, Bool.and_eq_true, decide_eq_true_eq,
      toNat_ofNat_valid _ hv]
    omega

/-! ## Formatter equations (the two `fmt::Display` impls) -/

theorem display_from_parts (u : Uuid) (a : Nat) :
    DebugId.display (DebugId.from_parts u a) =
      uuidHyphenatedLower u ++ (if 0 < a then '-' :: toHexLower a else []) := rfl

theorem display_from_timestamp_age (t a : Nat) :
    DebugId.display (DebugId.from_timestamp_age t a) =
      padZero 8 (toHexUpper t) ++ (if 0 < a then '-' :: toHexLower a else []) := rfl

theorem breakpad_from_parts (u : Uuid) (a : Nat) :
    DebugId.breakpad (DebugId.from_parts u a) = uuidSimpleUpper u ++ toHexLower a := rfl

theorem breakpad_from_timestamp_age (t a : Nat) :
    DebugId.breakpad (DebugId.from_timestamp_age t a) =
      padZero 8 (toHexUpper t) ++ toHexLower a := rfl

/-! ## Claim theorems -/

/-- C7: an input that is exactly a valid UUID text (36-character hyphenated or
32-character simple form, nothing following) is accepted by the general parser
(`FromStr`) as that UUID with appendix 0, while `from_breakpad`, which requires
the appendix segment, rejects the very same input. -/
theorem uuid_exact_general_accepts_breakpad_rejects (s : List Char) (u : Uuid)
    (hu : parseUuid s = some u) :
    DebugId.from_str s = some (DebugId.from_parts u 0) ∧ DebugId.from_breakpad s = none :=
  ⟨from_str_uuid_exact s u hu, from_breakpad_uuid_exact s u hu⟩

/-- Witness for C7 at the concrete hyphenated UUID text. -/
theorem uuid_exact_general_accepts_breakpad_rejects_witness :
    parseUuid (String.toList "dfb8e43a-f242-3d73-a453-aeb6a777ef75") =
      some (⟨0xdf, 0xb8, 0xe4, 0x3a, 0xf2, 0x42, 0x3d, 0x73,
            0xa4, 0x53, 0xae, 0xb6, 0xa7, 0x77, 0xef, 0x75⟩ : Uuid) ∧
    DebugId.from_str (String.toList "dfb8e43a-f242-3d73-a453-aeb6a777ef75") =
      some (DebugId.from_parts ⟨0xdf, 0xb8, 0xe4, 0x3a, 0xf2, 0x42, 0x3d, 0x73,
            0xa4, 0x53, 0xae, 0xb6, 0xa7, 0x77, 0xef, 0x75⟩ 0) ∧
    DebugId.from_breakpad (String.toList "dfb8e43a-f242-3d73-a453-aeb6a777ef75") = none :=
  ⟨by decide,
   (uuid_exact_general_accepts_breakpad_rejects
     (String.toList "dfb8e43a-f242-3d73-a453-aeb6a777ef75")
     ⟨0xdf, 0xb8, 0xe4, 0x3a, 0xf2, 0x42, 0x3d, 0x73,
      0xa4, 0x53, 0xae, 0xb6, 0xa7, 0x77, 0xef, 0x75⟩ (by decide)).1,
   (uuid_exact_general_accepts_breakpad_rejects
     (String.toList "dfb8e43a-f242-3d73-a453-aeb6a777ef75")
     ⟨0xdf, 0xb8, 0xe4, 0x3a, 0xf2, 0x42, 0x3d, 0x73,
      0xa4, 0x53, 0xae, 0xb6, 0xa7, 0x77, 0xef, 0x75⟩ (by decide)).2⟩

/-- C10: `is_nil` is true for `DebugId::nil()` and also for
`from_timestamp_age(0, 0)`, although the two values are different under the
derived structural equality, so `is_nil x` does not imply `x = nil()`. -/
theorem is_nil_not_unique :
    DebugId.is_nil DebugId.nilId = true ∧
    DebugId.is_nil (DebugId.from_timestamp_age 0 0) = true ∧
    DebugId.from_timestamp_age 0 0 ≠ DebugId.nilId ∧
    ¬(∀ x : DebugId, DebugId.is_nil x = true → x = DebugId.nilId) := by
  refine ⟨by decide, by decide, by decide, fun hall => ?_⟩
  exact absurd (hall (DebugId.from_timestamp_age 0 0) (by decide)) (by decide)

/-- C6: `from_guid_age` fails exactly when the GUID slice is not 16 bytes; on
a 16-byte slice it succeeds with the UUID variant whose bytes are the input
with bytes 0-3 reversed, 4-5 swapped, 6-7 swapped, 8-15 unchanged, and with
appendix equal to the age. -/
theorem from_guid_age_spec (guid : List Nat) (age : Nat) :
    (DebugId.from_guid_age guid age = none ↔ guid.length ≠ 16) ∧
    (∀ g0 g1 g2 g3 g4 g5 g6 g7 g8 g9 g10 g11 g12 g13 g14 g15 : Nat,
      guid = [g0, g1, g2, g3, g4, g5, g6, g7, g8, g9, g10, g11, g12, g13, g14, g15] →
      DebugId.from_guid_age guid age = some (DebugId.from_parts
        ⟨g3, g2, g1, g0, g5, g4, g7, g6, g8, g9, g10, g11, g12, g13, g14, g15⟩ age)) := by
  constructor
  · unfold DebugId.from_guid_age
    by_cases h : guid.length ≠ 16
    · rw [if_pos h]
      simpa using h
    · rw [if_neg h]
      push_neg at h
      simp [h]
  · intro g0 g1 g2 g3 g4 g5 g6 g7 g8 g9 g10 g11 g12 g13 g14 g15 hg
    subst hg
    rfl

/-- Witness for C6 at a concrete 16-byte GUID. -/
theorem from_guid_age_spec_witness :
    DebugId.from_guid_age [0, 1, 2, 3, 4, 5, 6, 7, 8, 9, 10, 11, 12, 13, 14, 15] 7 =
      some (DebugId.from_parts ⟨3, 2, 1, 0, 5, 4, 7, 6, 8, 9, 10, 11, 12, 13, 14, 15⟩ 7) :=
  (from_guid_age_spec [0, 1, 2, 3, 4, 5, 6, 7, 8, 9, 10, 11, 12, 13, 14, 15] 7).2
    0 1 2 3 4 5 6 7 8 9 10 11 12 13 14 15 rfl

/-- C9: `CodeId::new` (and hence `From` and the never-failing `FromStr`)
stores exactly the subsequence of ASCII hex digits of the input, in order,
folded to lowercase; every constructible `CodeId` therefore holds only
lowercase hex digits. -/
theorem codeid_new_normalizes (s : List Char) :
    (CodeId.new s).inner = (s.filter isHexDigitChar).map toLowerAscii ∧
    List.Sublist (CodeId.new s).inner (s.map toLowerAscii) ∧
    (CodeId.new s).inner.all isLowerHexDigit = true ∧
    CodeId.from_str s = some (CodeId.new s) := by
  refine ⟨rfl, ?_, ?_, rfl⟩
  · exact List.Sublist.map toLowerAscii (List.filter_sublist s)
  · rw [List.all_eq_true]
    intro c hc
    simp only [CodeId.new, List.mem_map] at hc
    obtain ⟨d, hd, rfl⟩ := hc
    exact lower_hex_of_hex d (List.of_mem_filter hd)

theorem from_binary_inner (bs : List Nat) (hb : bs.all (fun b => decide (b < 256)) = true) :
    (CodeId.from_binary bs).inner = (bs.map byteHexLower).flatten := by
  induction bs with
  | nil => rfl
  | cons b t ih =>
    rw [List.all_cons, Bool.and_eq_true, decide_eq_true_eq] at hb
    have e : CodeId.from_binary (b :: t) = CodeId.new (padZero 2 (toHexLower b) ++
        List.flatten (t.map fun x => padZero 2 (toHexLower x))) := rfl
    rw [e, padZero_two_byte b hb.1]
    unfold CodeId.new
    simp only [List.filter_append, List.map_append, List.map_cons, List.flatten_cons]
    congr 1
    · unfold byteHexLower
      rw [List.filter_cons_of_pos (by rw [hexLower_isHex _ (div16_lt b hb.1)]),
        List.filter_cons_of_pos (by rw [hexLower_isHex _ (mod16_lt b)]), List.filter_nil]
      rw [List.map_cons, List.map_cons, List.map_nil,
        toLowerAscii_fix_lower _ (div16_lt b hb.1), toLowerAscii_fix_lower _ (mod16_lt b)]
    · exact ih hb.2

/-- C8: `CodeId::from_binary` renders each byte as two lowercase hex digits in
order and never fails; `from_binary` of the empty slice is nil, and `is_nil`
holds exactly when the stored string is empty. -/
theorem from_binary_spec (bs : List Nat) (hb : bs.all (fun b => decide (b < 256)) = true) :
    (CodeId.from_binary bs).inner = (bs.map byteHexLower).flatten ∧
    CodeId.is_nil (CodeId.from_binary []) = true ∧
    (∀ c : CodeId, CodeId.is_nil c = true ↔ c.inner = []) := by
  refine ⟨from_binary_inner bs hb, by decide, fun c => ?_⟩
  unfold CodeId.is_nil
  exact List.isEmpty_iff

/-- Witness for C8 at a concrete byte slice. -/
theorem from_binary_spec_witness :
    (CodeId.from_binary [0xdf, 0xb8]).inner = ([0xdf, 0xb8].map byteHexLower).flatten ∧
    CodeId.is_nil (CodeId.from_binary []) = true :=
  ⟨(from_binary_spec [0xdf, 0xb8] (by decide)).1, (from_binary_spec [] (by decide)).2.1⟩

/-- C5: the default form (`Display`) ends in a hyphen followed by the minimal
lowercase hex appendix exactly when the appendix is nonzero (the appendix
segment is omitted exactly for appendix 0), while the Breakpad form always
appends the lowercase hex appendix, zero included. -/
theorem appendix_zero_suppression (x : DebugId) (hwf : x.wfId) :
    ((∃ p, DebugId.display x = p ++ '-' :: toHexLower x.appendix) ↔ x.appendix ≠ 0) ∧
    (∃ p, DebugId.breakpad x = p ++ toHexLower x.appendix) := by
  obtain ⟨id, ap⟩ := x
  refine ⟨⟨?_, ?_⟩, ?_⟩
  · rintro ⟨p, hp⟩ hap0
    have hap : ap = 0 := hap0
    subst hap
    cases id with
    | Pdb20 t =>
      have e : DebugId.display ⟨Identifier.Pdb20 t, 0⟩ = padZero 8 (toHexUpper t) := by
        rw [show (⟨Identifier.Pdb20 t, 0⟩ : DebugId) = DebugId.from_timestamp_age t 0 from rfl,
          display_from_timestamp_age]
        simp
      rw [e] at hp
      have hmem : '-' ∈ padZero 8 (toHexUpper t) := by
        rw [hp]
        exact List.mem_append_right _ (List.mem_cons_self _ _)
      have := List.all_eq_true.mp (padZero_all_hex 8 _ (toHexUpper_all_hex t)) _ hmem
      exact absurd this (by decide)
    | IdUuid u =>
      have hwfu : u.wf := hwf
      have e : DebugId.display ⟨Identifier.IdUuid u, 0⟩ = uuidHyphenatedLower u := by
        rw [show (⟨Identifier.IdUuid u, 0⟩ : DebugId) = DebugId.from_parts u 0 from rfl,
          display_from_parts]
        simp
      rw [e] at hp
      have h0 : toHexLower (DebugId.appendix ⟨Identifier.IdUuid u, 0⟩) = ['0'] := rfl
      rw [h0] at hp
      have hlu : (uuidHyphenatedLower u).length = 36 := rfl
      have hlen : p.length = 34 := by
        have hc := congrArg List.length hp
        rw [hlu, List.length_append, List.length_cons, List.length_cons, List.length_nil] at hc
        omega
      have h34 : (uuidHyphenatedLower u)[34]? = some '-' := by
        rw [hp, List.getElem?_append_right (by omega), hlen]
        norm_num
      have h34v : (uuidHyphenatedLower u)[34]? = some (hexDigitLower (u.b15 / 16)) := rfl
      rw [h34v, Option.some.injEq] at h34
      rw [hexLower_ne_dash (u.b15 / 16)
        (div16_lt _ hwfu.2.2.2.2.2.2.2.2.2.2.2.2.2.2.2)] at h34
      exact h34
  · intro hap
    have hap' : ap ≠ 0 := hap
    cases id with
    | Pdb20 t =>
      refine ⟨padZero 8 (toHexUpper t), ?_⟩
      rw [show (⟨Identifier.Pdb20 t, ap⟩ : DebugId) = DebugId.from_timestamp_age t ap from rfl,
        display_from_timestamp_age, if_pos (Nat.pos_of_ne_zero hap')]
      rfl
    | IdUuid u =>
      refine ⟨uuidHyphenatedLower u, ?_⟩
      rw [show (⟨Identifier.IdUuid u, ap⟩ : DebugId) = DebugId.from_parts u ap from rfl,
        display_from_parts, if_pos (Nat.pos_of_ne_zero hap')]
      rfl
  · cases id with
    | Pdb20 t => exact ⟨padZero 8 (toHexUpper t), rfl⟩
    | IdUuid u => exact ⟨uuidSimpleUpper u, rfl⟩

/-- Witness for C5 at a concrete legacy identifier with appendix 0. -/
theorem appendix_zero_suppression_witness :
    DebugId.wfId (DebugId.from_timestamp_age 5 0) ∧
    ¬∃ p, DebugId.display (DebugId.from_timestamp_age 5 0) =
      p ++ '-' :: toHexLower (DebugId.appendix (DebugId.from_timestamp_age 5 0)) := by
  refine ⟨trivial, ?_⟩
  intro hex
  exact absurd ((appendix_zero_suppression (DebugId.from_timestamp_age 5 0) trivial).1.mp hex)
    (by decide)

/-- C1 counterexample: for the legacy value `from_timestamp_age 0 0` the
default string form is the bare 8-character timestamp, which the general
parser (`FromStr`) rejects, so the stated round-trip fails on it. -/
theorem roundtrip_counterexample :
    DebugId.from_str (DebugId.display (DebugId.from_timestamp_age 0 0)) = none ∧
    DebugId.from_str (DebugId.display (DebugId.from_timestamp_age 0 0)) ≠
      some (DebugId.from_timestamp_age 0 0) := by
  constructor <;> decide

/-- C1 (amended): the round-trip holds for every `from_parts` value through
both the default form with `FromStr` and the Breakpad form with
`from_breakpad`; for `from_timestamp_age` values the Breakpad round-trip
always holds, and the default-form round-trip holds exactly when the appendix
is nonzero (with appendix 0 the default form is 8 characters and fails to
parse). -/
theorem roundtrip_spec (u : Uuid) (t a : Nat) (hu : u.wf) (ht : t < 2 ^ 32)
    (ha : a < 2 ^ 32) :
    DebugId.from_str (DebugId.display (DebugId.from_parts u a)) =
      some (DebugId.from_parts u a) ∧
    DebugId.from_breakpad (DebugId.breakpad (DebugId.from_parts u a)) =
      some (DebugId.from_parts u a) ∧
    (a ≠ 0 → DebugId.from_str (DebugId.display (DebugId.from_timestamp_age t a)) =
      some (DebugId.from_timestamp_age t a)) ∧
    DebugId.from_breakpad (DebugId.breakpad (DebugId.from_timestamp_age t a)) =
      some (DebugId.from_timestamp_age t a) := by
  refine ⟨?_, ?_, ?_, ?_⟩
  · rw [display_from_parts]
    by_cases h0 : 0 < a
    · rw [if_pos h0]
      rw [from_str_uuid_hyph_tail (uuidHyphenatedLower u) u (parseUuid_format_hyph u hu) rfl
        (toHexLower a) (toHexLower_ascii a)]
      rw [if_neg (by have := toHexLower_length_le a ha; omega)]
      rw [fromStrRadix16_toHexLower a ha]
      rfl
    · rw [if_neg h0, List.append_nil]
      have ha0 : a = 0 := by omega
      subst ha0
      exact from_str_uuid_exact _ u (parseUuid_format_hyph u hu)
  · rw [breakpad_from_parts]
    obtain ⟨c, rest, hcr⟩ := List.exists_cons_of_ne_nil (toHexLower_ne_nil a)
    have hchex : isHexDigitChar c = true := by
      have hall := toHexLower_all_hex a
      rw [hcr, List.all_cons, Bool.and_eq_true] at hall
      exact hall.1
    rw [from_breakpad_uuid_tail u hu (toHexLower a) (toHexLower_ascii a)
      (by rw [hcr]
          simp only [List.head?_cons, ne_eq, Option.some.injEq]
          exact hex_ne_dash c hchex)]
    rw [fromStrRadix16_toHexLower a ha]
    rfl
  · intro ha0
    rw [display_from_timestamp_age, if_pos (Nat.pos_of_ne_zero ha0)]
    exact from_str_legacy_tail t a ht ha
  · rw [breakpad_from_timestamp_age]
    exact from_breakpad_legacy t a ht ha

/-- Witness for C1 (amended) at a concrete UUID, timestamp and appendix. -/
theorem roundtrip_spec_witness :
    (⟨0xdf, 0xb8, 0xe4, 0x3a, 0xf2, 0x42, 0x3d, 0x73,
      0xa4, 0x53, 0xae, 0xb6, 0xa7, 0x77, 0xef, 0x75⟩ : Uuid).wf ∧
    DebugId.from_breakpad (DebugId.breakpad (DebugId.from_timestamp_age 0 10)) =
      some (DebugId.from_timestamp_age 0 10) :=
  ⟨by decide,
   (roundtrip_spec ⟨0xdf, 0xb8, 0xe4, 0x3a, 0xf2, 0x42, 0x3d, 0x73,
      0xa4, 0x53, 0xae, 0xb6, 0xa7, 0x77, 0xef, 0x75⟩ 0 10
      (by decide) (by decide) (by decide)).2.2.2⟩

/-- C2 counterexample: the hyphenated input "00000000-0" lies in the legacy
length window and both hex fields convert successfully, yet in Breakpad mode
(one of the parser's modes) the parse fails instead of returning the
legacy-timestamp value, because hyphenated input is rejected up front. -/
theorem legacy_window_mode_counterexample :
    fromStrRadix16 ((String.toList "00000000-0").take 8) = some 0 ∧
    fromStrRadix16 ((String.toList "00000000-0").drop 9) = some 0 ∧
    DebugId.from_breakpad (String.toList "00000000-0") = none ∧
    DebugId.from_breakpad (String.toList "00000000-0") ≠
      some (DebugId.from_timestamp_age 0 0) := by
  refine ⟨by decide, by decide, by decide, by decide⟩

/-- C2 (amended): for every ASCII input in the legacy length window
([10,17] characters when offset 8 is a hyphen, [9,16] when not), in any mode
whose hyphen policy admits the input, the parser interprets the first 8
characters as a hex u32 timestamp and the remainder (past the hyphen at
offset 8 if present) as a hex u32 appendix, returning the legacy variant when
both conversions succeed and failing otherwise; such an input is never
interpreted as a UUID. -/
theorem legacy_window_spec (opts : ParseOptions) (s : List Char)
    (ha : s.all isAsciiB = true)
    (hmode : isHyph s = true → opts.allow_hyphens = true)
    (hwin : if isHyph s = true then 10 ≤ s.length ∧ s.length ≤ 17
            else 9 ≤ s.length ∧ s.length ≤ 16) :
    DebugId.parse_str s opts =
      ((fromStrRadix16 (s.take 8)).bind fun timestamp =>
        (fromStrRadix16 (if isHyph s then s.drop 9 else s.drop 8)).map fun appendix =>
          DebugId.from_timestamp_age timestamp appendix) ∧
    (∀ x, DebugId.parse_str s opts = some x → DebugId.is_pdb20 x = true) := by
  have h := parse_str_window opts s ha hmode hwin
  refine ⟨h, fun x hx => ?_⟩
  rw [h] at hx
  cases e1 : fromStrRadix16 (s.take 8) with
  | none => rw [e1] at hx; exact absurd hx (by simp)
  | some t =>
    rw [e1] at hx
    cases e2 : fromStrRadix16 (if isHyph s then s.drop 9 else s.drop 8) with
    | none => rw [e2] at hx; exact absurd hx (by simp)
    | some a =>
      rw [e2] at hx
      simp only [Option.map_some', Option.some_bind, Option.some.injEq] at hx
      rw [← hx]
      rfl

/-- Witness for C2 (amended) at a concrete in-window input in general mode. -/
theorem legacy_window_spec_witness :
    DebugId.parse_str (String.toList "12345678-a") ⟨true, false, true⟩ =
      some (DebugId.from_timestamp_age 0x12345678 10) := by
  rw [(legacy_window_spec ⟨true, false, true⟩ (String.toList "12345678-a")
    (by decide) (by decide) (by decide)).1]
  decide

/-- C3 counterexample: the general parser does NOT reject a 36-character
hyphenated UUID followed by a hyphen and nine hex digits; with its
`allow_tail` option it truncates the appendix to the first eight digits and
accepts the literal input with appendix 0xfeedface. -/
theorem nine_digit_literal_accepted :
    DebugId.from_str (String.toList "dfb8e43a-f242-3d73-a453-aeb6a777ef75-feedface1") =
      some (DebugId.from_parts ⟨0xdf, 0xb8, 0xe4, 0x3a, 0xf2, 0x42, 0x3d, 0x73,
        0xa4, 0x53, 0xae, 0xb6, 0xa7, 0x77, 0xef, 0x75⟩ 0xfeedface) ∧
    DebugId.from_str (String.toList "dfb8e43a-f242-3d73-a453-aeb6a777ef75-feedface1") ≠
      none := by
  constructor <;> decide

/-- C3 (amended): every input made of a valid 36-character hyphenated UUID
text, a hyphen and exactly nine hex appendix digits is accepted by the
general parser, with the appendix truncated to the value of its first eight
digits. -/
theorem nine_digit_appendix_truncates (s apx : List Char) (u : Uuid)
    (hu : parseUuid s = some u) (hL : s.length = 36)
    (ha9 : apx.length = 9) (hhx : apx.all isHexDigitChar = true) :
    DebugId.from_str (s ++ '-' :: apx) =
      some (DebugId.from_parts u (hexFold (apx.take 8))) := by
  rw [from_str_uuid_hyph_tail s u hu hL apx (all_hex_ascii apx hhx)]
  rw [if_pos (by omega)]
  have htk : (apx.take 8).all isHexDigitChar = true :=
    all_of_sublist _ _ _ (List.take_sublist 8 apx) hhx
  have hlen8 : (apx.take 8).length = 8 := by
    rw [List.length_take, ha9]
    decide
  have hne : apx.take 8 ≠ [] := by
    intro hnil
    rw [hnil] at hlen8
    exact absurd hlen8 (by simp)
  have hb : hexFold (apx.take 8) < 2 ^ 32 := by
    have h1 := hexFold_lt_pow _ htk
    rw [hlen8] at h1
    norm_num at h1 ⊢
    exact h1
  rw [fromStrRadix16_of_hex _ hne htk hb]
  rfl

/-- Witness for C3 (amended) at the literal input. -/
theorem nine_digit_appendix_truncates_witness :
    DebugId.from_str (String.toList "dfb8e43a-f242-3d73-a453-aeb6a777ef75" ++
        '-' :: String.toList "feedface1") =
      some (DebugId.from_parts ⟨0xdf, 0xb8, 0xe4, 0x3a, 0xf2, 0x42, 0x3d, 0x73,
        0xa4, 0x53, 0xae, 0xb6, 0xa7, 0x77, 0xef, 0x75⟩
        (hexFold ((String.toList "feedface1").take 8))) :=
  nine_digit_appendix_truncates (String.toList "dfb8e43a-f242-3d73-a453-aeb6a777ef75")
    (String.toList "feedface1")
    ⟨0xdf, 0xb8, 0xe4, 0x3a, 0xf2, 0x42, 0x3d, 0x73,
     0xa4, 0x53, 0xae, 0xb6, 0xa7, 0x77, 0xef, 0x75⟩
    (by decide) (by decide) (by decide) (by decide)

/-- C4: in the tolerant general mode, when the UUID prefix and separator are
valid and the appendix substring is longer than 8 characters, the parser
truncates that substring to its first 8 characters before hex-parsing
(silently ignoring the rest), for both the hyphenated and the compact shape;
the hex parse of those first 8 characters succeeds whenever they are all hex
digits. -/
theorem tolerant_tail_truncation (s apx : List Char) (u : Uuid)
    (hu : parseUuid s = some u) (hta : apx.all isAsciiB = true)
    (hlong : 8 < apx.length) :
    (s.length = 36 → DebugId.from_str (s ++ '-' :: apx) =
      (fromStrRadix16 (apx.take 8)).map fun appendix => DebugId.from_parts u appendix) ∧
    (s.length = 32 → apx.head? ≠ some '-' → DebugId.from_str (s ++ apx) =
      (fromStrRadix16 (apx.take 8)).map fun appendix => DebugId.from_parts u appendix) ∧
    ((apx.take 8).all isHexDigitChar = true →
      fromStrRadix16 (apx.take 8) = some (hexFold (apx.take 8))) := by
  refine ⟨fun hL => ?_, fun hL hnd => ?_, fun hhx => ?_⟩
  · rw [from_str_uuid_hyph_tail s u hu hL apx hta, if_pos hlong]
  · obtain ⟨hsa, hcase⟩ := parseUuid_inv s u hu
    rcases hcase with ⟨_, h8⟩ | ⟨hL2, _⟩
    swap
    · omega
    have hys : isHyph s = false := by
      unfold isHyph
      exact decide_eq_false h8
    have h := parse_str_uuid_stage ⟨true, false, true⟩ s apx u hu hta
      (fun hcontr => absurd (hys ▸ hcontr) (by simp))
    unfold DebugId.from_str
    rw [h, hys]
    rw [decide_eq_false (by omega : ¬ apx.length = 0)]
    rw [decide_eq_false hnd]
    simp only [Bool.false_eq_true, if_false, bne_self_eq_false, Bool.and_false, Bool.true_and,
      Bool.and_true]
    rw [decide_eq_true hlong]
    rfl
  · have hlen8 : (apx.take 8).length = 8 := by
      rw [List.length_take]
      omega
    have hne : apx.take 8 ≠ [] := by
      intro hnil
      rw [hnil] at hlen8
      exact absurd hlen8 (by simp)
    have hb : hexFold (apx.take 8) < 2 ^ 32 := by
      have h1 := hexFold_lt_pow _ hhx
      rw [hlen8] at h1
      norm_num at h1 ⊢
      exact h1
    exact fromStrRadix16_of_hex _ hne hhx hb

/-- Witness for C4 at a concrete oversized appendix with a garbage tail. -/
theorem tolerant_tail_truncation_witness :
    DebugId.from_str (String.toList "dfb8e43a-f242-3d73-a453-aeb6a777ef75" ++
        '-' :: String.toList "aaaaaaaaZZ") =
      (fromStrRadix16 ((String.toList "aaaaaaaaZZ").take 8)).map
        fun appendix => DebugId.from_parts ⟨0xdf, 0xb8, 0xe4, 0x3a, 0xf2, 0x42, 0x3d, 0x73,
          0xa4, 0x53, 0xae, 0xb6, 0xa7, 0x77, 0xef, 0x75⟩ appendix :=
  (tolerant_tail_truncation (String.toList "dfb8e43a-f242-3d73-a453-aeb6a777ef75")
    (String.toList "aaaaaaaaZZ")
    ⟨0xdf, 0xb8, 0xe4, 0x3a, 0xf2, 0x42, 0x3d, 0x73,
     0xa4, 0x53, 0xae, 0xb6, 0xa7, 0x77, 0xef, 0x75⟩
    (by decide) (by decide) (by decide)).1 (by decide)

/-- Witness for C9 at a concrete mixed string. -/
theorem codeid_new_normalizes_witness :
    (CodeId.new (String.toList "dfb8E43A-xyz!75")).inner =
      ((String.toList "dfb8E43A-xyz!75").filter isHexDigitChar).map toLowerAscii :=
  (codeid_new_normalizes (String.toList "dfb8E43A-xyz!75")).1
